import Mathlib

/-!
Verification of the binary-data presentation and transform core of the
devtool-demo repository: byte/hex utilities, UUID generation (v3/v4/v5)
and the hex-dump renderer.  Byte buffers (JS `Uint8Array`) are modelled
as `List Nat` whose elements are below 256; strings as Lean `String`.
-/

namespace DevTools

/-- A JavaScript value, as far as the config-merging code needs it. -/
inductive JsVal where
  | undef : JsVal
  | jsNull : JsVal
  | boolean (b : Bool) : JsVal
  | num (n : Int) : JsVal
  | str (s : String) : JsVal
deriving DecidableEq

/-- JS truthiness for the modelled values (`undefined`, `null`, `false`,
`0` and the empty string are falsy). -/
def jsTruthy : JsVal → Bool
  | JsVal.undef => false
  | JsVal.jsNull => false
  | JsVal.boolean b => b
  | JsVal.num n => decide (n ≠ 0)
  | JsVal.str s => decide (s ≠ "")

/-- The JS `a || b` operator on modelled values. -/
def jsOr (a b : JsVal) : JsVal := if jsTruthy a then a else b

namespace Utils

/-- One lowercase hex digit, as produced by JS `Number.prototype.toString(16)`
(`Nat.digitChar` maps 0–15 to `0`–`9`, `a`–`f`). -/
def hexDigitChar (n : Nat) : Char := Nat.digitChar n

/-- JS `n.toString(16)` for a nonnegative integer: lowercase hex digits,
most significant first, `0` for zero. -/
def jsNumToHex (n : Nat) : List Char := Nat.toDigits 16 n

/-- JS `s.padStart(2, '0')` on a character list. -/
def padStart2 (s : List Char) : List Char :=
  if s.length < 2 then List.replicate (2 - s.length) '0' ++ s else s

/-- `b.toString(16).padStart(2, '0')`: the two-digit lowercase hex image of
one byte (longer when `b ≥ 256`, which a `Uint8Array` never produces). -/
def byteToHexPair (b : Nat) : List Char := padStart2 (jsNumToHex b)

/-- `Utils.bytesToHex` from common.js, as a character list:
`Array.from(bytes).map(b => b.toString(16).padStart(2, '0')).join('')`. -/
def bytesToHexL (l : List Nat) : List Char := (l.map byteToHexPair).flatten

/-- `Utils.bytesToHex` from common.js, producing a string. -/
def bytesToHex (l : List Nat) : String := String.mk (bytesToHexL l)

/-- JS StrWhiteSpace characters that `parseInt` skips (the common ones). -/
def isJsWhitespace (c : Char) : Bool :=
  c = ' ' || c = '\t' || c = '\n' || c = '\r'

/-- Is `c` a hex digit in either case, as accepted by `parseInt(s, 16)`. -/
def isHexDigitChar (c : Char) : Bool :=
  ('0' ≤ c && c ≤ '9') || ('a' ≤ c && c ≤ 'f') || ('A' ≤ c && c ≤ 'F')

/-- Numeric value of a hex digit character. -/
def hexCharVal (c : Char) : Nat :=
  if c ≤ '9' then c.toNat - 48 else if c ≤ 'F' then c.toNat - 55 else c.toNat - 87

/-- Value of a hex digit string, most significant digit first. -/
def hexDigitsVal (l : List Char) : Nat :=
  l.foldl (fun acc c => 16 * acc + hexCharVal c) 0

/-- JS `parseInt(s, 16)`: skip leading whitespace, optional sign, optional
`0x`/`0X` prefix, then the longest run of hex digits; `none` models `NaN`
(no digits at all). -/
def jsParseIntHex (s : List Char) : Option Int :=
  let s1 := s.dropWhile isJsWhitespace
  let sign : Int := match s1 with | '-' :: _ => -1 | _ => 1
  let s2 := match s1 with | '-' :: r => r | '+' :: r => r | _ => s1
  let s3 := match s2 with | '0' :: 'x' :: r => r | '0' :: 'X' :: r => r | _ => s2
  let ds := s3.takeWhile isHexDigitChar
  if ds.isEmpty then none else some (sign * (hexDigitsVal ds : Int))

/-- Storing a JS number into a `Uint8Array` slot: `NaN` becomes 0, other
integers are reduced modulo 256 (JS `ToUint8`). -/
def jsToUint8 : Option Int → Nat
  | none => 0
  | some v => (v % 256).toNat

/-- `Utils.hexToBytes` from common.js on a character list.  The source
allocates `new Uint8Array(hex.length / 2)` (the fractional length of an odd
input is truncated) and writes `parseInt(hex.substr(i, 2), 16)` for
`i = 0, 2, …`; the final out-of-bounds write of an odd-length input is
discarded by the typed array. -/
def hexToBytesL (hex : List Char) : List Nat :=
  (List.range (hex.length / 2)).map
    (fun i => jsToUint8 (jsParseIntHex ((hex.drop (2 * i)).take 2)))

/-- `Utils.hexToBytes` from common.js on a string. -/
def hexToBytes (hex : String) : List Nat := hexToBytesL hex.data

/-- UTF-8 encoding of one character (JS `TextEncoder`). -/
def utf8Bytes (c : Char) : List Nat :=
  let n := c.toNat
  if n < 128 then [n]
  else if n < 2048 then [192 ||| (n >>> 6), 128 ||| (n &&& 63)]
  else if n < 65536 then
    [224 ||| (n >>> 12), 128 ||| ((n >>> 6) &&& 63), 128 ||| (n &&& 63)]
  else
    [240 ||| (n >>> 18), 128 ||| ((n >>> 12) &&& 63),
     128 ||| ((n >>> 6) &&& 63), 128 ||| (n &&& 63)]

/-- `Utils.stringToBytes` from common.js: `new TextEncoder().encode(str)`. -/
def stringToBytes (s : String) : List Nat := (s.data.map utf8Bytes).flatten

/-- Is `c` one of the characters `bytesToHex` may emit: a lowercase hex digit. -/
def isLowerHexDigit (c : Char) : Bool :=
  ('0' ≤ c && c ≤ '9') || ('a' ≤ c && c ≤ 'f')

end Utils


namespace Sha1

/-- Mask to 32 bits. -/
def m32 (n : Nat) : Nat := n % 4294967296

/-- Rotate a 32-bit word left by `k` (for `0 < k < 32`). -/
def rotl (k n : Nat) : Nat := ((n <<< k) % 4294967296) ||| (n >>> (32 - k))

/-- Big-endian bytes of a 64-bit message length. -/
def lenBytes (n : Nat) : List Nat :=
  [(n >>> 56) &&& 255, (n >>> 48) &&& 255, (n >>> 40) &&& 255, (n >>> 32) &&& 255,
   (n >>> 24) &&& 255, (n >>> 16) &&& 255, (n >>> 8) &&& 255, n &&& 255]

/-- Big-endian bytes of a 32-bit word. -/
def wordBytes (n : Nat) : List Nat :=
  [(n >>> 24) &&& 255, (n >>> 16) &&& 255, (n >>> 8) &&& 255, n &&& 255]

/-- MD-style padding: a `0x80` byte, zeros to 56 mod 64, then the bit
length as 8 big-endian bytes. -/
def pad (msg : List Nat) : List Nat :=
  msg ++ 128 :: List.replicate ((55 + 64 - msg.length % 64) % 64) 0
      ++ lenBytes (8 * msg.length)

/-- Group bytes into big-endian 32-bit words, four at a time. -/
def wordsOfBytes : List Nat → List Nat
  | b0 :: b1 :: b2 :: b3 :: rest =>
      ((b0 <<< 24) ||| (b1 <<< 16) ||| (b2 <<< 8) ||| b3) :: wordsOfBytes rest
  | _ => []

/-- Split a byte list into 64-byte chunks; `fuel` bounds the recursion and
any value of at least the list length is enough. -/
def chunks64 : Nat → List Nat → List (List Nat)
  | 0, _ => []
  | _, [] => []
  | fuel + 1, l => l.take 64 :: chunks64 fuel (l.drop 64)

/-- The SHA-1 round function. -/
def roundF (i b c d : Nat) : Nat :=
  if i < 20 then (b &&& c) ||| ((b ^^^ 4294967295) &&& d)
  else if i < 40 then b ^^^ c ^^^ d
  else if i < 60 then (b &&& c) ||| (b &&& d) ||| (c &&& d)
  else b ^^^ c ^^^ d

/-- The SHA-1 round constants. -/
def roundK (i : Nat) : Nat :=
  if i < 20 then 1518500249
  else if i < 40 then 1859775393
  else if i < 60 then 2400959708
  else 3395469782

/-- Extend the 16 message words of a chunk to the 80-word schedule. -/
def schedule (w16 : List Nat) : List Nat :=
  (List.range 64).foldl
    (fun w i =>
      w ++ [rotl 1 ((w.getD (i + 13) 0) ^^^ (w.getD (i + 8) 0)
                      ^^^ (w.getD (i + 2) 0) ^^^ (w.getD i 0))])
    w16

/-- Compress one 64-byte chunk into the running state. -/
def processChunk (h : Nat × Nat × Nat × Nat × Nat) (chunk : List Nat) :
    Nat × Nat × Nat × Nat × Nat :=
  let w := schedule (wordsOfBytes chunk)
  let s := (List.range 80).foldl
    (fun s i =>
      let a := s.1
      let b := s.2.1
      let c := s.2.2.1
      let d := s.2.2.2.1
      let e := s.2.2.2.2
      let temp := m32 (rotl 5 a + roundF i b c d + e + roundK i + w.getD i 0)
      (temp, a, rotl 30 b, c, d)) h
  (m32 (h.1 + s.1), m32 (h.2.1 + s.2.1), m32 (h.2.2.1 + s.2.2.1),
   m32 (h.2.2.2.1 + s.2.2.2.1), m32 (h.2.2.2.2 + s.2.2.2.2))

end Sha1

/-- Modelled from the spec: the SHA-1 digest backing `Hash.sha1`
(`crypto.subtle.digest('SHA-1', …)`), a platform cryptographic primitive
whose implementation is not part of the repository.  Standard SHA-1
(RFC 3174) on a byte list, returning the 20 digest bytes. -/
def sha1 (msg : List Nat) : List Nat :=
  let padded := Sha1.pad msg
  let h := (Sha1.chunks64 padded.length padded).foldl Sha1.processChunk
    (1732584193, 4023233417, 2562383102, 271733878, 3285377520)
  Sha1.wordBytes h.1 ++ Sha1.wordBytes h.2.1 ++ Sha1.wordBytes h.2.2.1
    ++ Sha1.wordBytes h.2.2.2.1 ++ Sha1.wordBytes h.2.2.2.2

/-- The error outcomes the core can signal; `missingPrimitive` models the
deliberate `throw new Error('CryptoJS is required for UUID v3')` guard. -/
inductive JsError where
  | missingPrimitive : JsError
deriving DecidableEq

namespace UUID

/-- `UUID.parse` from common.js: remove every dash (a global-regex
`replace` with the empty string) then `Utils.hexToBytes`; no length or
digit validation of its own. -/
def parse (uuid : String) : List Nat :=
  Utils.hexToBytesL (uuid.data.filter (fun c => c ≠ '-'))

/-- `UUID.format` from common.js as a character list: the lowercase hex of
the 16 bytes sliced into 8-4-4-4-12 groups joined by `-`. -/
def formatList (bytes : List Nat) : List Char :=
  let hex := Utils.bytesToHexL bytes
  hex.take 8 ++ '-' :: (hex.drop 8).take 4 ++ '-' :: (hex.drop 12).take 4
    ++ '-' :: (hex.drop 16).take 4 ++ '-' :: (hex.drop 20).take 12

/-- `UUID.format` from common.js, producing a string. -/
def format (bytes : List Nat) : String := String.mk (formatList bytes)

/-- The shared version/variant stamping of v3/v4/v5:
`bytes[6] = (bytes[6] & 0x0f) | c` with `c` one of `0x30`, `0x40`, `0x50`,
and `bytes[8] = (bytes[8] & 0x3f) | 0x80`. -/
def stampVer (c : Nat) (b : List Nat) : List Nat :=
  let b1 := b.set 6 ((b.getD 6 0 &&& 15) ||| c)
  b1.set 8 ((b1.getD 8 0 &&& 63) ||| 128)

/-- `UUID.v4` from common.js, with the 16 `Utils.getRandomBytes` made an
explicit argument (the platform RNG is external): stamp version 4 and the
variant, then format. -/
def v4 (randomBytes : List Nat) : String := format (stampVer 64 randomBytes)

/-- `UUID.v3` from common.js, with the CryptoJS MD5 primitive made an
explicit optional argument: when it is absent the function throws
(`typeof CryptoJS === 'undefined'`), otherwise the 16 MD5 bytes of
namespace bytes ++ UTF-8 name are stamped with version 3 and formatted. -/
def v3 (md5 : Option (List Nat → List Nat)) (ns name : String) :
    Except JsError String :=
  match md5 with
  | none => Except.error JsError.missingPrimitive
  | some f =>
      Except.ok (format (stampVer 48 (f (parse ns ++ Utils.stringToBytes name))))

/-- `UUID.v5` from common.js: the first 16 SHA-1 bytes of
namespace bytes ++ UTF-8 name, stamped with version 5 and formatted. -/
def v5 (ns name : String) : String :=
  format (stampVer 80 ((sha1 (parse ns ++ Utils.stringToBytes name)).take 16))

/-- The standard DNS namespace constant from common.js. -/
def NAMESPACE_DNS : String := "6ba7b810-9dad-11d1-80b4-00c04fd430c8"

/-- The standard URL namespace constant from common.js. -/
def NAMESPACE_URL : String := "6ba7b811-9dad-11d1-80b4-00c04fd430c8"

end UUID

namespace HexView

/-- One row of the hex view: the row's starting byte offset and the bytes
it displays (`this.data.slice(offset, …)` in `render`). -/
structure RowView where
  offset : Nat
  bytes : List Nat
deriving DecidableEq, Repr

/-- The structured content `render` puts into the container when there is
data: the sizes, the truncation flag, the rows, and the omitted-byte count
reported by the trailing truncation marker (absent when not truncated). -/
structure HexRender where
  totalLength : Nat
  displayedLength : Nat
  truncated : Bool
  rows : List RowView
  omittedBytes : Option Nat
deriving DecidableEq, Repr

/-- The row loop of `render` in hex-view.js:
`for (let offset = 0; offset < displayBytes; offset += bytesPerRow)` with
`rowBytes = this.data.slice(offset, Math.min(offset + bytesPerRow, displayBytes))`.
The `0 < bpr` guard only closes the case the loop cannot reach (when
`bpr = 0`, `displayBytes` is already 0). -/
def buildRows (data : List Nat) (bpr displayBytes offset : Nat) : List RowView :=
  if _h : offset < displayBytes ∧ 0 < bpr then
    ⟨offset, (data.drop offset).take (min (offset + bpr) displayBytes - offset)⟩
      :: buildRows data bpr displayBytes (offset + bpr)
  else []
termination_by displayBytes - offset
decreasing_by omega

/-- `HexView.render` from hex-view.js as a pure view computation: `none` is
the distinct empty/"No data" state taken when the buffer is absent or has
length 0; otherwise the displayed length, truncation flag, rows and the
truncation marker's omitted-byte count. -/
def renderView (data : Option (List Nat)) (bpr maxRows : Nat) : Option HexRender :=
  match data with
  | none => none
  | some d =>
      if d.length = 0 then none
      else
        let total := d.length
        let displayBytes := min total (bpr * maxRows)
        some ⟨total, displayBytes, decide (total > displayBytes),
              buildRows d bpr displayBytes 0,
              if total > displayBytes then some (total - displayBytes) else none⟩

/-- The mutable fields of a `HexView` instance that the modelled methods
touch: the stored buffer, the (already merged) numeric config, and the
container content written by `render`. -/
structure State where
  data : Option (List Nat)
  bytesPerRow : Nat
  maxRows : Nat
  showAscii : Bool
  innerHTML : Option HexRender
  highlightedIndex : Int
deriving DecidableEq

/-- `HexView.render`: recomputes the container content from the stored
buffer; the only instance field it assigns is the container's HTML. -/
def render (st : State) : State :=
  ⟨st.data, st.bytesPerRow, st.maxRows, st.showAscii,
   renderView st.data st.bytesPerRow st.maxRows, st.highlightedIndex⟩

/-- `HexView.setData`: store the buffer (already a byte buffer here; the
string/ArrayBuffer conversions are upstream) and re-render. -/
def setData (st : State) (d : Option (List Nat)) : State :=
  render ⟨d, st.bytesPerRow, st.maxRows, st.showAscii, st.innerHTML,
          st.highlightedIndex⟩

/-- `HexView.getData`: returns the stored buffer. -/
def getData (st : State) : Option (List Nat) := st.data

/-- `HexView.getHexString` from hex-view.js: empty when no data, otherwise
`Array.from(this.data).map(b => b.toString(16).padStart(2, '0')).join('')`
over the whole stored buffer (textually the same computation as
`Utils.bytesToHex`). -/
def getHexString (st : State) : String :=
  match st.data with
  | none => ""
  | some d => String.mk ((d.map Utils.byteToHexPair).flatten)

/-- The constructor's raw `options` object: `none` means the key is absent,
`some v` that it is present with value `v` (possibly `undefined`). -/
structure RawOptions where
  bytesPerRow : Option JsVal
  showHeader : Option JsVal
  showAscii : Option JsVal
  maxRows : Option JsVal

/-- The merged option fields of `this.options`. -/
structure MergedOptions where
  bytesPerRow : JsVal
  showHeader : JsVal
  showAscii : JsVal
  maxRows : JsVal
deriving DecidableEq

/-- Reading a property of the options object: absent keys give `undefined`. -/
def propRead (o : Option JsVal) : JsVal := o.getD JsVal.undef

/-- The trailing `...options` spread in the constructor's object literal:
a key present in `options` overrides the normalized field written before
it, an absent key keeps it. -/
def spreadOver (normalized : JsVal) (raw : Option JsVal) : JsVal :=
  match raw with
  | some v => v
  | none => normalized

/-- The `this.options` object built by the `HexView` constructor:
`{ bytesPerRow: options.bytesPerRow || 16, showHeader: options.showHeader !== false,
showAscii: options.showAscii !== false, maxRows: options.maxRows || 100, ...options }`. -/
def mkOptions (o : RawOptions) : MergedOptions :=
  ⟨spreadOver (jsOr (propRead o.bytesPerRow) (JsVal.num 16)) o.bytesPerRow,
   spreadOver (JsVal.boolean (decide (propRead o.showHeader ≠ JsVal.boolean false))) o.showHeader,
   spreadOver (JsVal.boolean (decide (propRead o.showAscii ≠ JsVal.boolean false))) o.showAscii,
   spreadOver (jsOr (propRead o.maxRows) (JsVal.num 100)) o.maxRows⟩

end HexView

end DevTools

namespace DevTools.Utils

set_option maxRecDepth 8192 in
theorem byteToHexPair_eq :
    ∀ b < 256, byteToHexPair b = [Nat.digitChar (b / 16), Nat.digitChar (b % 16)] := by
  decide

set_option maxRecDepth 8192 in
theorem parse_pair_inv :
    ∀ b < 256, jsToUint8 (jsParseIntHex (byteToHexPair b)) = b := by
  decide

set_option maxRecDepth 8192 in
theorem byteToHexPair_lower :
    ∀ b < 256, ∀ c ∈ byteToHexPair b, isLowerHexDigit c = true := by
  decide

theorem bytesToHexL_nil : bytesToHexL [] = [] := rfl

theorem bytesToHexL_cons (a : Nat) (t : List Nat) :
    bytesToHexL (a :: t) = byteToHexPair a ++ bytesToHexL t := by
  simp [bytesToHexL]

theorem bytesToHexL_length (l : List Nat) (hl : ∀ x ∈ l, x < 256) :
    (bytesToHexL l).length = 2 * l.length := by
  induction l with
  | nil => rfl
  | cons a t ih =>
      have ha : a < 256 := hl a (by simp)
      rw [bytesToHexL_cons, List.length_append, byteToHexPair_eq a ha,
        ih (fun x hx => hl x (by simp [hx]))]
      simp [List.length_cons]
      omega

theorem bytesToHexL_drop2 (l : List Nat) (hl : ∀ x ∈ l, x < 256) :
    ∀ i : Nat, (bytesToHexL l).drop (2 * i) = bytesToHexL (l.drop i) := by
  induction l with
  | nil => intro i; simp [bytesToHexL]
  | cons a t ih =>
      intro i
      cases i with
      | zero => simp
      | succ j =>
          have ha : a < 256 := hl a (by simp)
          have ht : ∀ x ∈ t, x < 256 := fun x hx => hl x (by simp [hx])
          rw [bytesToHexL_cons, byteToHexPair_eq a ha]
          have h2 : 2 * (j + 1) = 2 * j + 1 + 1 := by omega
          rw [h2]
          simp only [List.cons_append, List.drop_succ_cons]
          rw [List.nil_append]
          exact ih ht j

theorem bytesToHexL_pair_at (l : List Nat) (hl : ∀ x ∈ l, x < 256)
    (i : Nat) (hi : i < l.length) :
    ((bytesToHexL l).drop (2 * i)).take 2 = byteToHexPair l[i] := by
  rw [bytesToHexL_drop2 l hl i, List.drop_eq_getElem_cons hi, bytesToHexL_cons,
    byteToHexPair_eq l[i] (hl _ (List.getElem_mem hi))]
  simp

theorem hexToBytesL_length (hex : List Char) :
    (hexToBytesL hex).length = hex.length / 2 := by
  simp [hexToBytesL]

theorem hexToBytes_bytesToHex (b : List Nat) (hb : ∀ x ∈ b, x < 256) :
    hexToBytes (bytesToHex b) = b := by
  have hlen : (bytesToHexL b).length = 2 * b.length := bytesToHexL_length b hb
  have hdiv : (bytesToHexL b).length / 2 = b.length := by omega
  apply List.ext_getElem?
  intro i
  by_cases hi : i < b.length
  · have h1 : (hexToBytesL (bytesToHexL b))[i]? =
        some (jsToUint8 (jsParseIntHex (((bytesToHexL b).drop (2 * i)).take 2))) := by
      simp [hexToBytesL, hexToBytes, List.getElem?_map, hdiv, hi]
    have h2 := bytesToHexL_pair_at b hb i hi
    have h3 := parse_pair_inv b[i] (hb _ (List.getElem_mem hi))
    simp only [hexToBytes, bytesToHex] at h1 ⊢
    rw [h1, h2, h3, List.getElem?_eq_getElem hi]
  · have h1 : (hexToBytesL (bytesToHexL b))[i]? = none := by
      rw [List.getElem?_eq_none]
      rw [hexToBytesL_length, hdiv]
      omega
    have h2 : b[i]? = none := by
      rw [List.getElem?_eq_none]
      omega
    simp only [hexToBytes, bytesToHex]
    rw [h1, h2]

end DevTools.Utils

namespace DevTools.Utils

theorem bytesToHexL_get_even (l : List Nat) (hl : ∀ x ∈ l, x < 256)
    (k : Nat) (hk : k < l.length) :
    (bytesToHexL l)[2 * k]? = some (Nat.digitChar (l[k] / 16)) := by
  have hp := bytesToHexL_pair_at l hl k hk
  have h1 : (bytesToHexL l)[2 * k]? = ((bytesToHexL l).drop (2 * k))[0]? := by
    simp [List.getElem?_drop]
  have h2 : ((bytesToHexL l).drop (2 * k))[0]? =
      (((bytesToHexL l).drop (2 * k)).take 2)[0]? := by
    rw [List.getElem?_take]
    simp
  rw [h1, h2, hp, byteToHexPair_eq l[k] (hl _ (List.getElem_mem hk))]
  rfl

theorem or_lt_256 (x y : Nat) (hx : x < 256) (hy : y < 256) : x ||| y < 256 := by
  have h : (256 : Nat) = 2 ^ 8 := by norm_num
  rw [h] at hx hy ⊢
  exact Nat.or_lt_two_pow hx hy

end DevTools.Utils

namespace DevTools.UUID

open DevTools.Utils

theorem stampVer_length (c : Nat) (b : List Nat) :
    (stampVer c b).length = b.length := by
  simp [stampVer]

theorem stampVer_mem_lt (c : Nat) (b : List Nat) (hc : c < 256)
    (hb : ∀ x ∈ b, x < 256) : ∀ x ∈ stampVer c b, x < 256 := by
  intro x hx
  have h63 : ∀ y : Nat, y &&& 63 < 256 := fun y =>
    lt_of_le_of_lt Nat.and_le_right (by norm_num)
  have h15 : ∀ y : Nat, y &&& 15 < 256 := fun y =>
    lt_of_le_of_lt Nat.and_le_right (by norm_num)
  rcases List.mem_or_eq_of_mem_set hx with h1 | h1
  · rcases List.mem_or_eq_of_mem_set h1 with h2 | h2
    · exact hb x h2
    · subst h2
      exact or_lt_256 _ _ (h15 _) hc
  · subst h1
    exact or_lt_256 _ _ (h63 _) (by norm_num)

theorem stampVer_getElem?_6 (c : Nat) (b : List Nat) (hlen : b.length = 16) :
    (stampVer c b)[6]? = some ((b.getD 6 0 &&& 15) ||| c) := by
  simp only [stampVer]
  rw [List.getElem?_set_ne (by omega), List.getElem?_set_self]
  simp [hlen]

theorem stampVer_getElem?_8 (c : Nat) (b : List Nat) (hlen : b.length = 16) :
    (stampVer c b)[8]? = some ((b.getD 8 0 &&& 63) ||| 128) := by
  simp only [stampVer]
  rw [List.getElem?_set_self]
  have h1 : (b.set 6 ((b.getD 6 0 &&& 15) ||| c)).getD 8 0 = b.getD 8 0 := by
    simp [List.getD, List.getElem?_set_ne (show (6 : Nat) ≠ 8 by decide)]
  rw [h1]
  simp [hlen]

theorem stampVer_getD6 (c : Nat) (b : List Nat) (hlen : b.length = 16) :
    (stampVer c b).getD 6 0 = (b.getD 6 0 &&& 15) ||| c := by
  have h := stampVer_getElem?_6 c b hlen
  simp [List.getD, h]

theorem stampVer_getD8 (c : Nat) (b : List Nat) (hlen : b.length = 16) :
    (stampVer c b).getD 8 0 = (b.getD 8 0 &&& 63) ||| 128 := by
  have h := stampVer_getElem?_8 c b hlen
  simp [List.getD, h]

theorem formatList_getElem?_14 (m : List Nat)
    (h : (Utils.bytesToHexL m).length = 32) :
    (formatList m)[14]? = (Utils.bytesToHexL m)[12]? := by
  simp only [formatList]
  simp [List.getElem?_append_right, List.getElem?_append, List.getElem_append_right,
    List.getElem_append_left, h]

theorem formatList_getElem?_19 (m : List Nat)
    (h : (Utils.bytesToHexL m).length = 32) :
    (formatList m)[19]? = (Utils.bytesToHexL m)[16]? := by
  simp only [formatList]
  simp [List.getElem?_append_right, List.getElem?_append, List.getElem_append_right,
    List.getElem_append_left, h]

end DevTools.UUID

namespace DevTools.UUID

set_option maxRecDepth 8192 in
theorem nibble_or_div16 : ∀ x < 256, ∀ v < 16, ((x &&& 15) ||| 16 * v) / 16 = v := by
  decide

set_option maxRecDepth 8192 in
theorem variant_or_div64 : ∀ x < 256, ((x &&& 63) ||| 128) / 64 = 2 := by
  decide

set_option maxRecDepth 8192 in
theorem digitChar_ver4 : ∀ x < 256, Nat.digitChar (((x &&& 15) ||| 64) / 16) = '4' := by
  decide

set_option maxRecDepth 8192 in
theorem digitChar_ver5 : ∀ x < 256, Nat.digitChar (((x &&& 15) ||| 80) / 16) = '5' := by
  decide

set_option maxRecDepth 8192 in
theorem digitChar_variant_mem :
    ∀ x < 256, Nat.digitChar (((x &&& 63) ||| 128) / 16) ∈ ['8', '9', 'a', 'b'] := by
  decide

theorem stamped_digit14 (c : Nat) (hc : c < 256) (m : List Nat)
    (hlen : m.length = 16) (hm : ∀ x ∈ m, x < 256) :
    (formatList (stampVer c m))[14]? =
      some (Nat.digitChar (((m.getD 6 0 &&& 15) ||| c) / 16)) := by
  have hsm := stampVer_mem_lt c m hc hm
  have hsl : (stampVer c m).length = 16 := by rw [stampVer_length, hlen]
  have hhl : (Utils.bytesToHexL (stampVer c m)).length = 32 := by
    rw [Utils.bytesToHexL_length _ hsm, hsl]
  rw [formatList_getElem?_14 _ hhl]
  have h6 : 6 < (stampVer c m).length := by omega
  have hg := Utils.bytesToHexL_get_even _ hsm 6 h6
  rw [show (12 : Nat) = 2 * 6 from rfl, hg]
  have he := stampVer_getElem?_6 c m hlen
  rw [List.getElem?_eq_getElem h6] at he
  rw [Option.some.inj he]

theorem stamped_digit19 (c : Nat) (hc : c < 256) (m : List Nat)
    (hlen : m.length = 16) (hm : ∀ x ∈ m, x < 256) :
    (formatList (stampVer c m))[19]? =
      some (Nat.digitChar (((m.getD 8 0 &&& 63) ||| 128) / 16)) := by
  have hsm := stampVer_mem_lt c m hc hm
  have hsl : (stampVer c m).length = 16 := by rw [stampVer_length, hlen]
  have hhl : (Utils.bytesToHexL (stampVer c m)).length = 32 := by
    rw [Utils.bytesToHexL_length _ hsm, hsl]
  rw [formatList_getElem?_19 _ hhl]
  have h8 : 8 < (stampVer c m).length := by omega
  have hg := Utils.bytesToHexL_get_even _ hsm 8 h8
  rw [show (16 : Nat) = 2 * 8 from rfl, hg]
  have he := stampVer_getElem?_8 c m hlen
  rw [List.getElem?_eq_getElem h8] at he
  rw [Option.some.inj he]

end DevTools.UUID

namespace DevTools

theorem wordBytes_mem_lt (n : Nat) : ∀ x ∈ Sha1.wordBytes n, x < 256 := by
  intro x hx
  have h255 : ∀ y : Nat, y &&& 255 < 256 := fun y =>
    lt_of_le_of_lt Nat.and_le_right (by norm_num)
  simp [Sha1.wordBytes] at hx
  rcases hx with rfl | rfl | rfl | rfl <;> exact h255 _

theorem sha1_length (m : List Nat) : (sha1 m).length = 20 := by
  simp [sha1, Sha1.wordBytes]

theorem sha1_eq_words (m : List Nat) :
    ∃ a b c d e, sha1 m = Sha1.wordBytes a ++ Sha1.wordBytes b
      ++ Sha1.wordBytes c ++ Sha1.wordBytes d ++ Sha1.wordBytes e :=
  ⟨_, _, _, _, _, rfl⟩

theorem sha1_mem_lt (m : List Nat) : ∀ x ∈ sha1 m, x < 256 := by
  intro x hx
  obtain ⟨a, b, c, d, e, heq⟩ := sha1_eq_words m
  rw [heq] at hx
  simp only [List.mem_append] at hx
  rcases hx with (((h | h) | h) | h) | h <;> exact wordBytes_mem_lt _ x h

end DevTools

namespace DevTools

/-- C1: for every UUID produced by UUID.v3, UUID.v4 or UUID.v5 the 16 raw
bytes are stamped before formatting (the OR constants 0x30, 0x40, 0x50 are
16·v) so that byte 6's high nibble equals the version and byte 8's two high
bits equal 10; in particular every v4 result has 13th hex digit `4`
(string index 14) and a 17th hex digit (string index 19) whose top two
bits are 10, i.e. one of 8, 9, a, b; a v5 result likewise has 13th hex
digit `5`. -/
theorem claimC1_version_variant_stamping (b : List Nat) (hlen : b.length = 16)
    (hb : ∀ x ∈ b, x < 256) (v : Nat) (hv : v = 3 ∨ v = 4 ∨ v = 5) :
    (UUID.stampVer (16 * v) b).getD 6 0 / 16 = v ∧
    (UUID.stampVer (16 * v) b).getD 8 0 / 64 = 2 ∧
    (UUID.v4 b).data[14]? = some '4' ∧
    (∃ c, (UUID.v4 b).data[19]? = some c ∧ c ∈ ['8', '9', 'a', 'b']) ∧
    (∀ ns name : String, (UUID.v5 ns name).data[14]? = some '5' ∧
      ∃ c, (UUID.v5 ns name).data[19]? = some c ∧ c ∈ ['8', '9', 'a', 'b']) := by
  have hb6 : b.getD 6 0 < 256 := by
    rw [List.getD_eq_getElem b 0 (by omega)]
    exact hb _ (List.getElem_mem _)
  have hb8 : b.getD 8 0 < 256 := by
    rw [List.getD_eq_getElem b 0 (by omega)]
    exact hb _ (List.getElem_mem _)
  refine ⟨?_, ?_, ?_, ?_, ?_⟩
  · rw [UUID.stampVer_getD6 _ b hlen]
    exact UUID.nibble_or_div16 _ hb6 v (by rcases hv with rfl | rfl | rfl <;> norm_num)
  · rw [UUID.stampVer_getD8 _ b hlen]
    exact UUID.variant_or_div64 _ hb8
  · show (UUID.formatList (UUID.stampVer 64 b))[14]? = some '4'
    rw [UUID.stamped_digit14 64 (by norm_num) b hlen hb, UUID.digitChar_ver4 _ hb6]
  · refine ⟨_, ?_, UUID.digitChar_variant_mem _ hb8⟩
    show (UUID.formatList (UUID.stampVer 64 b))[19]? = _
    exact UUID.stamped_digit19 64 (by norm_num) b hlen hb
  · intro ns name
    have hrl : ((sha1 (UUID.parse ns ++ Utils.stringToBytes name)).take 16).length = 16 := by
      rw [List.length_take, sha1_length]
      norm_num
    have hrm : ∀ x ∈ (sha1 (UUID.parse ns ++ Utils.stringToBytes name)).take 16, x < 256 :=
      fun x hx => sha1_mem_lt _ x (List.take_subset _ _ hx)
    have hr6 : ((sha1 (UUID.parse ns ++ Utils.stringToBytes name)).take 16).getD 6 0 < 256 := by
      rw [List.getD_eq_getElem _ 0 (by omega)]
      exact hrm _ (List.getElem_mem _)
    have hr8 : ((sha1 (UUID.parse ns ++ Utils.stringToBytes name)).take 16).getD 8 0 < 256 := by
      rw [List.getD_eq_getElem _ 0 (by omega)]
      exact hrm _ (List.getElem_mem _)
    constructor
    · show (UUID.formatList (UUID.stampVer 80
        ((sha1 (UUID.parse ns ++ Utils.stringToBytes name)).take 16)))[14]? = some '5'
      rw [UUID.stamped_digit14 80 (by norm_num) _ hrl hrm, UUID.digitChar_ver5 _ hr6]
    · refine ⟨_, ?_, UUID.digitChar_variant_mem _ hr8⟩
      show (UUID.formatList (UUID.stampVer 80
        ((sha1 (UUID.parse ns ++ Utils.stringToBytes name)).take 16)))[19]? = _
      exact UUID.stamped_digit19 80 (by norm_num) _ hrl hrm

/-- Witness for C1 at the all-0xff random buffer and version 4. -/
theorem claimC1_version_variant_stamping_witness :
    (List.replicate 16 255 : List Nat).length = 16 ∧
    (∀ x ∈ (List.replicate 16 255 : List Nat), x < 256) ∧
    ((UUID.stampVer (16 * 4) (List.replicate 16 255)).getD 6 0 / 16 = 4 ∧
     (UUID.stampVer (16 * 4) (List.replicate 16 255)).getD 8 0 / 64 = 2 ∧
     (UUID.v4 (List.replicate 16 255)).data[14]? = some '4' ∧
     (∃ c, (UUID.v4 (List.replicate 16 255)).data[19]? = some c ∧
        c ∈ ['8', '9', 'a', 'b']) ∧
     (∀ ns name : String, (UUID.v5 ns name).data[14]? = some '5' ∧
       ∃ c, (UUID.v5 ns name).data[19]? = some c ∧ c ∈ ['8', '9', 'a', 'b'])) :=
  ⟨by decide, by decide,
   claimC1_version_variant_stamping (List.replicate 16 255) (by decide) (by decide)
     4 (by norm_num)⟩

/-- C2: for every byte buffer `b`, hexToBytes (bytesToHex b) = b; bytesToHex
maps each byte to exactly two lowercase hex digits in order, and the empty
buffer round-trips through the empty string. -/
theorem claimC2_hex_roundtrip (b : List Nat) (hb : ∀ x ∈ b, x < 256) :
    Utils.hexToBytes (Utils.bytesToHex b) = b ∧
    (Utils.bytesToHex b).data.length = 2 * b.length ∧
    (∀ c ∈ (Utils.bytesToHex b).data, Utils.isLowerHexDigit c = true) ∧
    Utils.bytesToHex [] = "" := by
  refine ⟨Utils.hexToBytes_bytesToHex b hb, ?_, ?_, ?_⟩
  · exact Utils.bytesToHexL_length b hb
  · intro c hc
    have hm : c ∈ Utils.bytesToHexL b := hc
    simp only [Utils.bytesToHexL] at hm
    rw [List.mem_flatten] at hm
    obtain ⟨pair, hp, hcp⟩ := hm
    rw [List.mem_map] at hp
    obtain ⟨x, hx, rfl⟩ := hp
    exact Utils.byteToHexPair_lower x (hb x hx) c hcp
  · rfl

/-- Witness for C2 at a concrete five-byte buffer. -/
theorem claimC2_hex_roundtrip_witness :
    (∀ x ∈ [0, 1, 15, 171, 255], x < 256) ∧
    Utils.hexToBytes (Utils.bytesToHex [0, 1, 15, 171, 255]) = [0, 1, 15, 171, 255] :=
  ⟨by decide, (claimC2_hex_roundtrip [0, 1, 15, 171, 255] (by decide)).1⟩

end DevTools

namespace DevTools

/-- C5 counterexample: on the odd-length input `"abc"` hexToBytes does not
fail with a FormatError, it silently returns the one-byte buffer `[0xab]`,
refuting the claim that it never returns a buffer on such inputs. -/
theorem claimC5_counterexample : Utils.hexToBytes "abc" = [171] := by decide

/-- C5 amended: hexToBytes is total: it returns `⌊length / 2⌋` bytes, each
aligned two-character pair parsed with JS `parseInt` leniency (an invalid
pair gives NaN, stored as byte 0; a pair with only a valid leading digit
parses that digit), an odd trailing digit is dropped, and no input fails. -/
theorem claimC5_hexToBytes_total (hex : String) :
    (Utils.hexToBytes hex).length = hex.data.length / 2 ∧
    (∀ i, i < hex.data.length / 2 →
      (Utils.hexToBytes hex)[i]? =
        some (Utils.jsToUint8 (Utils.jsParseIntHex ((hex.data.drop (2 * i)).take 2)))) ∧
    Utils.hexToBytes "zz" = [0] := by
  refine ⟨Utils.hexToBytesL_length hex.data, ?_, by decide⟩
  intro i hi
  have hi2 : i < hex.length / 2 := hi
  simp [Utils.hexToBytes, Utils.hexToBytesL, List.getElem?_map, List.getElem?_range,
    hi, hi2]

/-- Witness for the amended C5 at the malformed input `"1g2"`. -/
theorem claimC5_hexToBytes_total_witness :
    ((0 : Nat) < "1g2".data.length / 2) ∧
    (Utils.hexToBytes "1g2")[0]? =
      some (Utils.jsToUint8 (Utils.jsParseIntHex (("1g2".data.drop (2 * 0)).take 2))) :=
  ⟨by decide, (claimC5_hexToBytes_total "1g2").2.1 0 (by decide)⟩

/-- C6 counterexample: UUID.parse of `"ff"` (2 hex digits instead of the
required 32) does not fail with a FormatError, it returns the buffer
`[255]`. -/
theorem claimC6_counterexample : UUID.parse "ff" = [255] := by decide

/-- C6 amended: UUID.parse strips all `-` separators and decodes whatever
remains through the lenient hexToBytes with no validation of its own:
only the dash-stripped character sequence matters (so grouping is
irrelevant), any digit count is accepted, and malformed input yields a
buffer rather than a FormatError. -/
theorem claimC6_parse_lenient (s t : String)
    (h : s.data.filter (fun c => c ≠ '-') = t.data.filter (fun c => c ≠ '-')) :
    UUID.parse s = UUID.parse t ∧
    UUID.parse s = Utils.hexToBytesL (s.data.filter (fun c => c ≠ '-')) ∧
    (UUID.parse "6ba7b810-9dad-11d1-80b4-00c04fd430c8").length = 16 ∧
    (UUID.parse "zz!").length = 1 := by
  refine ⟨?_, rfl, by decide, by decide⟩
  simp only [UUID.parse, h]

/-- Witness for the amended C6 at two differently grouped spellings. -/
theorem claimC6_parse_lenient_witness :
    ("ff-f".data.filter (fun c => c ≠ '-') = "f-ff".data.filter (fun c => c ≠ '-')) ∧
    UUID.parse "ff-f" = UUID.parse "f-ff" :=
  ⟨by decide, (claimC6_parse_lenient "ff-f" "f-ff" (by decide)).1⟩

set_option maxRecDepth 100000 in
/-- C7: UUID.v5 is deterministic: equal (namespace, name) pairs give equal
UUID strings, v5(NAMESPACE_DNS, "example.com") equals the fixed reference
value, and the empty name also has one fixed value. -/
theorem claimC7_v5_deterministic (ns1 ns2 name1 name2 : String)
    (hns : ns1 = ns2) (hname : name1 = name2) :
    UUID.v5 ns1 name1 = UUID.v5 ns2 name2 ∧
    UUID.v5 UUID.NAMESPACE_DNS "example.com" =
      "cfbff0d1-9375-5685-968c-48ce8b15ae17" ∧
    UUID.v5 UUID.NAMESPACE_DNS "" = "4ebd0208-8328-5d69-8c44-ec50939c0967" := by
  subst hns
  subst hname
  exact ⟨rfl, by decide, by decide⟩

/-- Witness for C7 at the reference namespace and name. -/
theorem claimC7_v5_deterministic_witness :
    (UUID.NAMESPACE_DNS = UUID.NAMESPACE_DNS ∧ "example.com" = "example.com") ∧
    UUID.v5 UUID.NAMESPACE_DNS "example.com" =
      UUID.v5 UUID.NAMESPACE_DNS "example.com" :=
  ⟨⟨rfl, rfl⟩,
   (claimC7_v5_deterministic UUID.NAMESPACE_DNS UUID.NAMESPACE_DNS
     "example.com" "example.com" rfl rfl).1⟩

/-- C8: UUID.v3 without the external MD5 primitive fails with the modelled
MissingPrimitiveError (the deliberate `typeof CryptoJS === 'undefined'`
guard) and never returns a value; with the primitive it returns a value. -/
theorem claimC8_v3_missing_primitive (ns name : String) :
    UUID.v3 none ns name = Except.error JsError.missingPrimitive ∧
    ∀ f, ∃ s, UUID.v3 (some f) ns name = Except.ok s :=
  ⟨rfl, fun f =>
    ⟨UUID.format (UUID.stampVer 48 (f (UUID.parse ns ++ Utils.stringToBytes name))), rfl⟩⟩

end DevTools

namespace DevTools.HexView

theorem buildRows_nil (data : List Nat) (bpr db offset : Nat)
    (h : ¬(offset < db ∧ 0 < bpr)) : buildRows data bpr db offset = [] := by
  unfold buildRows
  rw [dif_neg h]

theorem buildRows_cons (data : List Nat) (bpr db offset : Nat)
    (h1 : offset < db) (h2 : 0 < bpr) :
    buildRows data bpr db offset =
      ⟨offset, (data.drop offset).take (min (offset + bpr) db - offset)⟩
        :: buildRows data bpr db (offset + bpr) := by
  conv_lhs => unfold buildRows
  rw [dif_pos ⟨h1, h2⟩]

theorem buildRows_getElem? (data : List Nat) (bpr db : Nat) :
    ∀ (i offset : Nat), (buildRows data bpr db offset)[i]? =
      if offset + i * bpr < db ∧ 0 < bpr then
        some ⟨offset + i * bpr,
          (data.drop (offset + i * bpr)).take
            (min (offset + i * bpr + bpr) db - (offset + i * bpr))⟩
      else none := by
  intro i
  induction i with
  | zero =>
      intro offset
      by_cases h : offset < db ∧ 0 < bpr
      · rw [buildRows_cons data bpr db offset h.1 h.2]
        simp [h]
      · rw [buildRows_nil data bpr db offset h]
        simp [h]
  | succ j ih =>
      intro offset
      by_cases h : offset < db ∧ 0 < bpr
      · rw [buildRows_cons data bpr db offset h.1 h.2]
        simp only [List.getElem?_cons_succ]
        rw [ih (offset + bpr)]
        rw [show offset + bpr + j * bpr = offset + (j + 1) * bpr from by ring]
      · rw [buildRows_nil data bpr db offset h]
        have hneg : ¬(offset + (j + 1) * bpr < db ∧ 0 < bpr) := by
          rcases not_and_or.mp h with h1 | h2
          · intro hc
            exact h1 (lt_of_le_of_lt (Nat.le_add_right _ _) hc.1)
          · intro hc
            exact h2 hc.2
        simp [hneg]

theorem buildRows_flatten (data : List Nat) (bpr : Nat) (hbpr : 0 < bpr) :
    ∀ (fuel db offset : Nat), db - offset ≤ fuel → db ≤ data.length →
      ((buildRows data bpr db offset).map RowView.bytes).flatten =
        (data.take db).drop offset := by
  intro fuel
  induction fuel with
  | zero =>
      intro db offset hf hdb
      rw [buildRows_nil data bpr db offset (fun hc => by omega)]
      have hlen : ((data.take db).length : Nat) ≤ offset := by
        rw [List.length_take]
        omega
      rw [List.drop_eq_nil_of_le hlen]
      rfl
  | succ n ih =>
      intro db offset hf hdb
      by_cases h : offset < db
      · rw [buildRows_cons data bpr db offset h hbpr]
        simp only [List.map_cons, List.flatten_cons]
        rw [ih db (offset + bpr) (by omega) hdb]
        have h1 : (data.take db).drop offset =
            (data.drop offset).take (db - offset) := List.drop_take ..
        have h2 : (data.take db).drop (offset + bpr) =
            (data.drop (offset + bpr)).take (db - (offset + bpr)) := List.drop_take ..
        rw [h2, h1]
        by_cases hcase : db - offset ≤ bpr
        · have hk : min (offset + bpr) db - offset = db - offset := by omega
          have h0 : db - (offset + bpr) = 0 := by omega
          rw [hk, h0]
          simp
        · have hk : min (offset + bpr) db - offset = bpr := by omega
          have hsum : db - offset = bpr + (db - (offset + bpr)) := by omega
          rw [hk, hsum, List.take_add, List.drop_drop]
      · rw [buildRows_nil data bpr db offset (fun hc => h hc.1)]
        have hlen : ((data.take db).length : Nat) ≤ offset := by
          rw [List.length_take]
          omega
        rw [List.drop_eq_nil_of_le hlen]
        rfl

end DevTools.HexView

namespace DevTools

/-- C3: render yields the distinct empty state (no rows) exactly on an
absent or empty buffer; otherwise its rows partition the first
displayedLength bytes into consecutive bytesPerRow-chunks: flattening the
rows gives that prefix, every row is nonempty with at most bytesPerRow
bytes, every non-last row has exactly bytesPerRow bytes, and row i starts
at offset i·bytesPerRow; in particular 17 bytes with bytesPerRow 16 give
exactly two rows, the second holding exactly one byte. -/
theorem claimC3_row_partition (data : List Nat) (bpr maxRows : Nat) :
    HexView.renderView none bpr maxRows = none ∧
    HexView.renderView (some []) bpr maxRows = none ∧
    (∀ st, HexView.renderView (some data) bpr maxRows = some st →
      ((st.rows.map HexView.RowView.bytes).flatten = data.take st.displayedLength ∧
       (∀ r ∈ st.rows, r.bytes ≠ [] ∧ r.bytes.length ≤ bpr) ∧
       (∀ i r r2, st.rows[i]? = some r → st.rows[i + 1]? = some r2 →
          r.bytes.length = bpr) ∧
       (∀ i r, st.rows[i]? = some r → r.offset = i * bpr))) ∧
    HexView.renderView (some (List.replicate 17 0)) 16 100 =
      some ⟨17, 17, false, [⟨0, List.replicate 16 0⟩, ⟨16, [0]⟩], none⟩ := by
  refine ⟨rfl, rfl, ?_, ?_⟩
  · intro st hst
    by_cases hnil : data.length = 0
    · exfalso
      have hnone : HexView.renderView (some data) bpr maxRows = none := by
        simp [HexView.renderView, hnil]
      rw [hnone] at hst
      exact Option.noConfusion hst
    · have hsome : HexView.renderView (some data) bpr maxRows =
          some ⟨data.length, min data.length (bpr * maxRows),
            decide (data.length > min data.length (bpr * maxRows)),
            HexView.buildRows data bpr (min data.length (bpr * maxRows)) 0,
            if data.length > min data.length (bpr * maxRows) then
              some (data.length - min data.length (bpr * maxRows)) else none⟩ := by
        simp [HexView.renderView, hnil]
      rw [hsome] at hst
      obtain rfl := (Option.some.inj hst).symm
      have hdb_le : min data.length (bpr * maxRows) ≤ data.length :=
        Nat.min_le_left _ _
      refine ⟨?_, ?_, ?_, ?_⟩
      · by_cases hbpr : 0 < bpr
        · have hfl := HexView.buildRows_flatten data bpr hbpr
            (min data.length (bpr * maxRows)) (min data.length (bpr * maxRows)) 0
            (by omega) hdb_le
          simpa using hfl
        · have hbz : bpr = 0 := by omega
          subst hbz
          rw [HexView.buildRows_nil data 0 _ 0 (fun hc => by omega)]
          simp
      · intro r hr
        obtain ⟨i, hi⟩ := List.mem_iff_getElem?.mp hr
        rw [HexView.buildRows_getElem?] at hi
        by_cases hc : 0 + i * bpr < min data.length (bpr * maxRows) ∧ 0 < bpr
        · rw [if_pos hc] at hi
          obtain rfl := (Option.some.inj hi).symm
          constructor
          · apply List.ne_nil_of_length_pos
            rw [List.length_take, List.length_drop]
            omega
          · rw [List.length_take, List.length_drop]
            omega
        · rw [if_neg hc] at hi
          exact Option.noConfusion hi
      · intro i r r2 hi hi2
        rw [HexView.buildRows_getElem?] at hi hi2
        by_cases hc2 : 0 + (i + 1) * bpr < min data.length (bpr * maxRows) ∧ 0 < bpr
        · by_cases hc : 0 + i * bpr < min data.length (bpr * maxRows) ∧ 0 < bpr
          · rw [if_pos hc] at hi
            obtain rfl := (Option.some.inj hi).symm
            rw [List.length_take, List.length_drop]
            have hexp : (i + 1) * bpr = i * bpr + bpr := by ring
            rw [hexp] at hc2
            omega
          · rw [if_neg hc] at hi
            exact Option.noConfusion hi
        · rw [if_neg hc2] at hi2
          exact Option.noConfusion hi2
      · intro i r hi
        rw [HexView.buildRows_getElem?] at hi
        by_cases hc : 0 + i * bpr < min data.length (bpr * maxRows) ∧ 0 < bpr
        · rw [if_pos hc] at hi
          obtain rfl := (Option.some.inj hi).symm
          simp
        · rw [if_neg hc] at hi
          exact Option.noConfusion hi
  · have e3 : HexView.buildRows (List.replicate 17 0) 16 17 32 = [] :=
      HexView.buildRows_nil _ _ _ _ (by norm_num)
    have e2 : HexView.buildRows (List.replicate 17 0) 16 17 16 =
        ⟨16, ((List.replicate 17 0).drop 16).take (min (16 + 16) 17 - 16)⟩
          :: HexView.buildRows (List.replicate 17 0) 16 17 32 :=
      HexView.buildRows_cons _ _ _ _ (by norm_num) (by norm_num)
    have e1 : HexView.buildRows (List.replicate 17 0) 16 17 0 =
        ⟨0, ((List.replicate 17 0).drop 0).take (min (0 + 16) 17 - 0)⟩
          :: HexView.buildRows (List.replicate 17 0) 16 17 16 :=
      HexView.buildRows_cons _ _ _ _ (by norm_num) (by norm_num)
    rw [e2, e3] at e1
    simp only [HexView.renderView]
    norm_num
    rw [e1]
    decide

/-- Witness for C3: bytesPerRow 16 is positive and the 17-byte instance
renders to exactly two rows with a one-byte second row. -/
theorem claimC3_row_partition_witness :
    HexView.renderView (some (List.replicate 17 0)) 16 100 =
      some ⟨17, 17, false, [⟨0, List.replicate 16 0⟩, ⟨16, [0]⟩], none⟩ ∧
    (∀ st, HexView.renderView (some [7]) 16 100 = some st →
      ((st.rows.map HexView.RowView.bytes).flatten = [7].take st.displayedLength ∧
       (∀ r ∈ st.rows, r.bytes ≠ [] ∧ r.bytes.length ≤ 16) ∧
       (∀ i r r2, st.rows[i]? = some r → st.rows[i + 1]? = some r2 →
          r.bytes.length = 16) ∧
       (∀ i r, st.rows[i]? = some r → r.offset = i * 16))) :=
  ⟨(claimC3_row_partition (List.replicate 17 0) 16 100).2.2.2,
   (claimC3_row_partition [7] 16 100).2.2.1⟩

end DevTools

namespace DevTools

/-- C4: for every nonempty buffer and config, render computes
displayedLength = min(totalLength, bytesPerRow · maxRows), sets truncated
exactly when totalLength exceeds displayedLength, and the truncation
marker reports exactly totalLength − displayedLength omitted bytes (and is
absent when not truncated). -/
theorem claimC4_truncation_accounting (data : List Nat) (bpr maxRows : Nat)
    (hd : data ≠ []) :
    ∃ st, HexView.renderView (some data) bpr maxRows = some st ∧
      st.totalLength = data.length ∧
      st.displayedLength = min data.length (bpr * maxRows) ∧
      (st.truncated = true ↔ data.length > st.displayedLength) ∧
      (st.truncated = true →
        st.omittedBytes = some (data.length - st.displayedLength)) ∧
      (st.truncated = false → st.omittedBytes = none) := by
  have hnil : ¬ data.length = 0 := by
    simpa [List.length_eq_zero] using hd
  refine ⟨⟨data.length, min data.length (bpr * maxRows),
      decide (data.length > min data.length (bpr * maxRows)),
      HexView.buildRows data bpr (min data.length (bpr * maxRows)) 0,
      if data.length > min data.length (bpr * maxRows) then
        some (data.length - min data.length (bpr * maxRows)) else none⟩,
    by simp [HexView.renderView, hnil], rfl, rfl, ?_, ?_, ?_⟩
  · simp
  · intro ht
    simp only [decide_eq_true_eq] at ht
    simp [ht]
  · intro ht
    simp only [decide_eq_false_iff_not] at ht
    simp [ht]

/-- Witness for C4: a 10-byte buffer shown with 4 bytes per row and at
most 2 rows is truncated with 2 omitted bytes. -/
theorem claimC4_truncation_accounting_witness :
    ((List.range 10 : List Nat) ≠ []) ∧
    (∃ st, HexView.renderView (some (List.range 10)) 4 2 = some st ∧
      st.totalLength = (List.range 10).length ∧
      st.displayedLength = min (List.range 10).length (4 * 2) ∧
      (st.truncated = true ↔ (List.range 10).length > st.displayedLength) ∧
      (st.truncated = true →
        st.omittedBytes = some ((List.range 10).length - st.displayedLength)) ∧
      (st.truncated = false → st.omittedBytes = none)) :=
  ⟨by decide, claimC4_truncation_accounting (List.range 10) 4 2 (by decide)⟩

/-- C9 counterexample: a malformed bytesPerRow (the string "wat", or the
falsy 0 that the normalization alone would replace) ends up in
this.options exactly as given, not as the default 16. -/
theorem claimC9_counterexample :
    (HexView.mkOptions ⟨some (JsVal.str "wat"), none, none, none⟩).bytesPerRow
      = JsVal.str "wat" ∧
    (HexView.mkOptions ⟨some (JsVal.num 0), none, none, none⟩).bytesPerRow
      = JsVal.num 0 ∧
    (HexView.mkOptions ⟨some (JsVal.str "wat"), none, none, none⟩).bytesPerRow
      ≠ JsVal.num 16 := by
  exact ⟨rfl, rfl, by decide⟩

/-- C9 amended: only keys absent from the options object get the defaults
(bytesPerRow 16, maxRows 100, showAscii true, showHeader true); any key
present in options — malformed or not — is used exactly as given, because
the trailing object spread re-applies the raw value over the normalized
one. -/
theorem claimC9_options_passthrough (o : HexView.RawOptions) :
    (HexView.mkOptions o).bytesPerRow =
      (match o.bytesPerRow with | some v => v | none => JsVal.num 16) ∧
    (HexView.mkOptions o).maxRows =
      (match o.maxRows with | some v => v | none => JsVal.num 100) ∧
    (HexView.mkOptions o).showAscii =
      (match o.showAscii with | some v => v | none => JsVal.boolean true) ∧
    (HexView.mkOptions o).showHeader =
      (match o.showHeader with | some v => v | none => JsVal.boolean true) := by
  obtain ⟨bp, sh, sa, mr⟩ := o
  refine ⟨?_, ?_, ?_, ?_⟩
  · cases bp <;> rfl
  · cases mr <;> rfl
  · cases sa <;> rfl
  · cases sh <;> rfl

/-- C10: rendering is read-only on the stored buffer: after setData and a
further render the stored buffer is unchanged, getData returns it, and
getHexString returns the two-lowercase-hex-digit encoding of the entire
buffer (2·totalLength digits), not just the displayed prefix; render never
assigns the data field of any state. -/
theorem claimC10_render_readonly (st : HexView.State) (d : List Nat)
    (hb : ∀ x ∈ d, x < 256) :
    (HexView.render (HexView.setData st (some d))).data = some d ∧
    HexView.getData (HexView.render (HexView.setData st (some d))) = some d ∧
    HexView.getHexString (HexView.render (HexView.setData st (some d))) =
      Utils.bytesToHex d ∧
    (HexView.getHexString
        (HexView.render (HexView.setData st (some d)))).data.length
      = 2 * d.length ∧
    (∀ st2 : HexView.State, (HexView.render st2).data = st2.data) :=
  ⟨rfl, rfl, rfl, Utils.bytesToHexL_length d hb, fun _ => rfl⟩

/-- Witness for C10 at a three-byte buffer in a fresh default view state. -/
theorem claimC10_render_readonly_witness :
    (∀ x ∈ [60, 62, 255], x < 256) ∧
    HexView.getHexString
        (HexView.render (HexView.setData ⟨none, 16, 100, true, none, -1⟩
          (some [60, 62, 255]))) = Utils.bytesToHex [60, 62, 255] :=
  ⟨by decide,
   (claimC10_render_readonly ⟨none, 16, 100, true, none, -1⟩ [60, 62, 255]
     (by decide)).2.2.1⟩

end DevTools
